import Mathlib

/-!
# Verification of `bill95.py` (Observium 95th-percentile billing script)

Shallow embedding of `src/bill95.py`. Python floats are modelled by `ℚ`
(the script's arithmetic — `max`, `* 8 / 1e6`, sorting, linear
interpolation — is exact on the rationals appearing in the claims).
External collaborators (rrdtool fetch, the MySQL directory, the
filesystem) are modelled as explicit inputs: a fetch oracle
`String → Except String FetchRes` and a file-existence predicate
`String → Bool`.  Python exceptions are modelled by `Except String`.
-/

/-! ## Fetch results and the percentile engine (`compute_95th`, lines 22–38) -/

/-- The result of `rrdtool.fetch`: the list of DS names and one row of
optional values per timestep (`None` = data gap). -/
structure FetchRes where
  names : List String
  data : List (List (Option ℚ))
deriving DecidableEq

/-- Ascending sort, as performed inside `np.percentile`. -/
def sortAsc (vals : List ℚ) : List ℚ :=
  List.insertionSort (· ≤ ·) vals

/-- The virtual index `0.95 * (n - 1)` used by `np.percentile(·, 95)`
with its default linear interpolation. -/
def pctIdx (n : Nat) : ℚ :=
  95 / 100 * ((n : ℚ) - 1)

/-- `np.percentile(vals, 95)` with the default (linear) interpolation:
sort ascending, take the virtual index `0.95*(n-1)`, and interpolate
between the floor and ceil order statistics. -/
def npPercentile95 (vals : List ℚ) : ℚ :=
  let s := sortAsc vals
  let idx := pctIdx vals.length
  let lo := (⌊idx⌋).toNat
  let hi := (⌈idx⌉).toNat
  s.getD lo 0 + (idx - (⌊idx⌋ : ℚ)) * (s.getD hi 0 - s.getD lo 0)

/-- The per-row combination of `compute_95th` (line 31): positions 0 and 1
of the row are combined with `max` when both are present; otherwise the
row is dropped. -/
def combinedOf (row : List (Option ℚ)) : Option ℚ :=
  match row.getD 0 none, row.getD 1 none with
  | some a, some b => some (max a b)
  | _, _ => none

/-- `compute_95th` (lines 22–38), applied to the fetch result.  Raises
`ValueError` when fewer than two DS are present; returns `0.0` when no
row has both directions; otherwise converts to Mbps (`* 8 / 1e6`) and
takes the 95th percentile. -/
def compute_95th (f : FetchRes) : Except String ℚ :=
  if f.names.length < 2 then
    Except.error "RRD must have at least two DS (in/out)"
  else
    let combined_vals := f.data.filterMap combinedOf
    if combined_vals.isEmpty then Except.ok 0
    else Except.ok (npPercentile95 (combined_vals.map (fun v => v * 8 / 1000000)))

/-! ## Customer aggregation (`main`, lines 142–154) -/

/-- Python's `max` over a list, with `0` for the empty list — matching the
`if combined_samples: max(...) else: 0.0` shape of lines 150–153. -/
def maxList : List ℚ → ℚ
  | [] => 0
  | v :: vs => vs.foldl max v

/-- One interface's attempt: fetch the RRD, then `compute_95th`; any
exception on the way is the caught `Exception` of line 148. -/
def interfaceVal (o : Except String FetchRes) : Except String ℚ :=
  o.bind compute_95th

/-- `combined_samples` (lines 143–149): the successfully computed
per-interface percentiles, failures skipped with a warning. -/
def successVals (outcomes : List (Except String FetchRes)) : List ℚ :=
  outcomes.filterMap (fun o => (interfaceVal o).toOption)

/-- `val_95` for one customer (lines 150–153): `max` of the successful
per-interface percentiles, `0.0` if none succeeded. -/
def processCustomer (outcomes : List (Except String FetchRes)) : ℚ :=
  maxList (successVals outcomes)

/-! ## Directory lookup and grouping (`load_customer_interfaces`, lines 85–120) -/

/-- One row of the `ports`/`devices` join. -/
structure PortRow where
  ifIndex : Nat
  ifAlias : String
  hostname : String
deriving DecidableEq

/-- Structural model of list-level starts-with (used for the SQL filter
`ifAlias REGEXP '^[Cc]ust:'`). -/
def listStartsWith : List Char → List Char → Bool
  | [], _ => true
  | _ :: _, [] => false
  | p :: ps, c :: cs => p = c && listStartsWith ps cs

/-- The SQL filter of line 94: the alias starts with `Cust:` or `cust:`. -/
def matchesCust (als : String) : Bool :=
  listStartsWith "Cust:".data als.data || listStartsWith "cust:".data als.data

/-- `alias.split(":", 1)[1]`: the text after the first colon, `none` when
no colon exists (in which case line 110's `IndexError` fires). -/
def splitFirstColonList : List Char → Option (List Char)
  | [] => none
  | c :: cs => if c = ':' then some cs else splitFirstColonList cs

/-- Python `str.strip()`: drop leading and trailing whitespace. -/
def pyStripList (cs : List Char) : List Char :=
  ((cs.dropWhile Char.isWhitespace).reverse.dropWhile Char.isWhitespace).reverse

/-- `cust_name` derivation of lines 108–111: text after the first colon,
stripped; `"Unknown"` when the alias has no colon. -/
def custNameOf (als : String) : String :=
  match splitFirstColonList als.data with
  | some rest => String.mk (pyStripList rest)
  | none => "Unknown"

/-- `os.path.join(rrd_base, hostname, f"port-{ifIndex}.rrd")` (line 114). -/
def rrdFile (base : String) (r : PortRow) : String :=
  base ++ "/" ++ r.hostname ++ "/port-" ++ toString r.ifIndex ++ ".rrd"

/-- Insertion into the `defaultdict(list)` of line 105, preserving Python's
dict insertion order: an existing key keeps its position, a new key is
appended at the end. -/
def insertGroup (acc : List (String × List String)) (key file : String) :
    List (String × List String) :=
  match acc with
  | [] => [(key, [file])]
  | (k, fs) :: rest =>
      if k = key then (k, fs ++ [file]) :: rest
      else (k, fs) :: insertGroup rest key file

/-- `load_customer_interfaces` (lines 85–120): filter rows by the alias
convention, derive the customer name, drop rows whose RRD file does not
exist, and group the remaining files by customer in first-seen order. -/
def load_customer_interfaces (fexists : String → Bool) (base : String)
    (rows : List PortRow) : List (String × List String) :=
  (rows.filter (fun r => matchesCust r.ifAlias)).foldl
    (fun acc r =>
      let file := rrdFile base r
      if fexists file then insertGroup acc (custNameOf r.ifAlias) file
      else acc) []

/-! ## Report formatting (`main`, lines 154–157) -/

/-- Round half to even on `ℚ`, the rounding used by Python's fixed-point
`format`. -/
def roundHalfEven (x : ℚ) : Int :=
  let n := ⌊x⌋
  let f := x - (n : ℚ)
  if f < 1/2 then n
  else if 1/2 < f then n + 1
  else if n % 2 = 0 then n else n + 1

/-- Two-digit rendering of the fractional part. -/
def twoDigits (r : Nat) : String :=
  if r < 10 then "0" ++ toString r else toString r

/-- Python's `f"{val:.2f}"`: round to hundredths, render with exactly two
digits after the point. -/
def formatMbps (q : ℚ) : String :=
  let c := roundHalfEven (q * 100)
  let sign := if c < 0 then "-" else ""
  sign ++ toString (c.natAbs / 100) ++ "." ++ twoDigits (c.natAbs % 100)

/-- One report line (line 154): `f"{cust_name}: {val_95:.2f} Mbps"`. -/
def billLine (name : String) (v : ℚ) : String :=
  name ++ ": " ++ formatMbps v ++ " Mbps"

/-- The per-customer billing results in customer order (lines 142–153),
with the RRD fetches supplied by the oracle `fetchRRD`. -/
def billingResults (fetchRRD : String → Except String FetchRes)
    (customers : List (String × List String)) : List (String × ℚ) :=
  customers.map (fun c => (c.1, processCustomer (c.2.map fetchRRD)))

/-- Lines 156–157: `header + "\n" + "\n".join(lines)` where `header`
already ends in a newline. -/
def buildReport (label : String) (results : List (String × ℚ)) : String :=
  "95th Percentile Billing Report for " ++ label ++ "\n" ++ "\n" ++
    String.intercalate "\n" (results.map (fun r => billLine r.1 r.2))

/-- `main` from line 137 on, given the loaded customer groups: the
zero-customer guard prints a message and returns (exit code 0, no
report); otherwise the report is built and delivered (exit code 0).
The returned pair is (process exit code, report produced). -/
def runMain (label : String) (fetchRRD : String → Except String FetchRes)
    (customers : List (String × List String)) : Nat × Option String :=
  if customers.isEmpty then (0, none)
  else (0, some (buildReport label (billingResults fetchRRD customers)))

/-! ## Period selection (`get_date_range` / `get_month_label`, lines 41–61) -/

/-- A Python naive `datetime` (local time). -/
structure PyDateTime where
  year : Nat
  month : Nat
  day : Nat
  hour : Nat
  minute : Nat
  second : Nat
deriving DecidableEq

def isLeapYear (y : Nat) : Bool :=
  (y % 4 = 0 && y % 100 ≠ 0) || y % 400 = 0

def daysInMonth (y m : Nat) : Nat :=
  if m = 2 then (if isLeapYear y then 29 else 28)
  else if m = 4 ∨ m = 6 ∨ m = 9 ∨ m = 11 then 30
  else 31

/-- `datetime.datetime(y, m, 1)`. -/
def firstOfMonth (y m : Nat) : PyDateTime :=
  ⟨y, m, 1, 0, 0, 0⟩

/-- `d - datetime.timedelta(seconds=1)` on the civil calendar. -/
def subOneSecond (d : PyDateTime) : PyDateTime :=
  if d.second > 0 then { d with second := d.second - 1 }
  else if d.minute > 0 then { d with minute := d.minute - 1, second := 59 }
  else if d.hour > 0 then { d with hour := d.hour - 1, minute := 59, second := 59 }
  else if d.day > 1 then { d with day := d.day - 1, hour := 23, minute := 59, second := 59 }
  else if d.month > 1 then
    { d with month := d.month - 1, day := daysInMonth d.year (d.month - 1),
             hour := 23, minute := 59, second := 59 }
  else
    { year := d.year - 1, month := 12, day := 31, hour := 23, minute := 59, second := 59 }

/-- `get_date_range(prev_month=True)` (lines 43–48), at the level of the
local-time datetimes the source builds before converting them with
`.timestamp()` (a strictly monotone local-time-to-epoch map, left
abstract here). -/
def get_date_range_prev (now : PyDateTime) : PyDateTime × PyDateTime :=
  let first_this_month := firstOfMonth now.year now.month
  let last_month_end := subOneSecond first_this_month
  let last_month_start := firstOfMonth last_month_end.year last_month_end.month
  (last_month_start, last_month_end)

def monthName (m : Nat) : String :=
  (["January", "February", "March", "April", "May", "June", "July",
    "August", "September", "October", "November", "December"]).getD (m - 1) ""

/-- `strftime("%B %Y")`. -/
def strftimeBY (d : PyDateTime) : String :=
  monthName d.month ++ " " ++ toString d.year

/-- `get_month_label(prev_month=True)` (lines 56–59). -/
def get_month_label_prev (now : PyDateTime) : String :=
  strftimeBY (subOneSecond (firstOfMonth now.year now.month))

/-! ## Spec-side reference definitions (for the refinement claims) -/

/-- From the spec's words (§4.3 steps 1–2): for a sample with both
directions present, `combinedRate = max(inRate, outRate)` converted to
Mbps by `* 8 / 1_000_000`; a sample with a missing direction is excluded. -/
def specCombined (s : Option ℚ × Option ℚ) : Option ℚ :=
  match s with
  | (some i, some o) => some (max i o * 8 / 1000000)
  | _ => none

/-- From the spec's words (§4.3 step 4): sort ascending, index
`0.95 * (n-1)`, interpolate between the floor and ceil ranks. -/
def specInterpolate (sorted : List ℚ) : ℚ :=
  let idx := (95 : ℚ) / 100 * ((sorted.length : ℚ) - 1)
  sorted.getD (⌊idx⌋).toNat 0 +
    (idx - (⌊idx⌋ : ℚ)) * (sorted.getD (⌈idx⌉).toNat 0 - sorted.getD (⌊idx⌋).toNat 0)

/-- The spec's `percentile95` (§4.3), on samples given as
(inRate, outRate) pairs with optional directions. -/
def percentile95_spec (samples : List (Option ℚ × Option ℚ)) : ℚ :=
  specInterpolate (sortAsc (samples.filterMap specCombined))

/-- The (in, out) pair that `compute_95th` reads from a row: positions 0
and 1. -/
def pairsOf (data : List (List (Option ℚ))) : List (Option ℚ × Option ℚ) :=
  data.map (fun r => (r.getD 0 none, r.getD 1 none))

/-- First-seen order of a list of names: the order in which new names
appear. -/
def firstSeen (names : List String) : List String :=
  names.foldl (fun acc n => if n ∈ acc then acc else acc ++ [n]) []

/-! ## Helper lemmas -/

lemma le_foldl_max (l : List ℚ) : ∀ a : ℚ, a ≤ l.foldl max a := by
  induction l with
  | nil => intro a; simp
  | cons b l ih =>
    intro a
    calc a ≤ max a b := le_max_left a b
    _ ≤ (b :: l).foldl max a := by simpa using ih (max a b)

lemma foldl_max_mem (l : List ℚ) : ∀ a : ℚ, l.foldl max a = a ∨ l.foldl max a ∈ l := by
  induction l with
  | nil => intro a; left; rfl
  | cons b l ih =>
    intro a
    have h := ih (max a b)
    simp only [List.foldl_cons]
    rcases h with h | h
    · rcases max_choice a b with hab | hab
      · left; rw [h, hab]
      · right; rw [h, hab]; exact List.mem_cons_self b l
    · right; exact List.mem_cons_of_mem b h

lemma mem_le_foldl_max (l : List ℚ) : ∀ (a x : ℚ), x ∈ l → x ≤ l.foldl max a := by
  induction l with
  | nil => intro a x hx; simp at hx
  | cons b l ih =>
    intro a x hx
    simp only [List.foldl_cons]
    rcases List.mem_cons.mp hx with h | h
    · subst h
      calc x ≤ max a x := le_max_right a x
      _ ≤ l.foldl max (max a x) := le_foldl_max l _
    · exact ih (max a b) x h

lemma maxList_mem {l : List ℚ} (h : l ≠ []) : maxList l ∈ l := by
  match l with
  | v :: vs =>
    simp only [maxList]
    rcases foldl_max_mem vs v with h' | h'
    · rw [h']; exact List.mem_cons_self v vs
    · exact List.mem_cons_of_mem v h'

lemma le_maxList {l : List ℚ} {x : ℚ} (hx : x ∈ l) : x ≤ maxList l := by
  match l with
  | v :: vs =>
    simp only [maxList]
    rcases List.mem_cons.mp hx with h | h
    · subst h; exact le_foldl_max vs x
    · exact mem_le_foldl_max vs v x h

lemma getD_zero_nonneg (l : List ℚ) (k : Nat) (h : ∀ x ∈ l, 0 ≤ x) : 0 ≤ l.getD k 0 := by
  by_cases hk : k < l.length
  · rw [List.getD_eq_getElem l 0 hk]
    exact h _ (List.getElem_mem hk)
  · rw [List.getD_eq_getElem?_getD]
    rw [List.getElem?_eq_none (by omega)]
    norm_num

lemma getD_mem_of_ne_default {l : List (Option ℚ)} {k : Nat} {q : ℚ}
    (h : l.getD k none = some q) : some q ∈ l := by
  by_cases hk : k < l.length
  · rw [List.getD_eq_getElem l none hk] at h
    rw [← h]
    exact List.getElem_mem hk
  · rw [List.getD_eq_getElem?_getD, List.getElem?_eq_none (by omega)] at h
    simp at h

lemma sortAsc_length (vals : List ℚ) : (sortAsc vals).length = vals.length :=
  List.length_insertionSort _ vals

lemma sortAsc_mem {vals : List ℚ} {x : ℚ} (h : x ∈ sortAsc vals) : x ∈ vals :=
  (List.perm_insertionSort (· ≤ ·) vals).mem_iff.mp h

lemma pctIdx_nonneg {n : Nat} (h : 0 < n) : 0 ≤ pctIdx n := by
  unfold pctIdx
  apply mul_nonneg (by norm_num)
  have : (1 : ℚ) ≤ (n : ℚ) := by exact_mod_cast h
  linarith

lemma pctIdx_floor_lt {n : Nat} (h : 0 < n) : (⌊pctIdx n⌋).toNat < n := by
  have h1 : (1 : ℚ) ≤ (n : ℚ) := by exact_mod_cast h
  have h2 : pctIdx n ≤ (n : ℚ) - 1 := by unfold pctIdx; nlinarith
  have h3 : ⌊pctIdx n⌋ ≤ ⌊(n : ℚ) - 1⌋ := Int.floor_le_floor h2
  have h4 : ⌊(n : ℚ) - 1⌋ = (n : ℤ) - 1 := by
    rw [show ((n : ℚ) - 1) = (((n : ℤ) - 1 : ℤ) : ℚ) by push_cast; ring]
    exact Int.floor_intCast _
  omega

lemma pctIdx_ceil_lt {n : Nat} (h : 0 < n) : (⌈pctIdx n⌉).toNat < n := by
  have h1 : (1 : ℚ) ≤ (n : ℚ) := by exact_mod_cast h
  have h2 : pctIdx n ≤ (n : ℚ) - 1 := by unfold pctIdx; nlinarith
  have h3 : ⌈pctIdx n⌉ ≤ ⌈(n : ℚ) - 1⌉ := Int.ceil_le_ceil h2
  have h4 : ⌈(n : ℚ) - 1⌉ = (n : ℤ) - 1 := by
    rw [show ((n : ℚ) - 1) = (((n : ℤ) - 1 : ℤ) : ℚ) by push_cast; ring]
    exact Int.ceil_intCast _
  omega

/-- The percentile of a one-element list is its element. -/
lemma npPercentile95_singleton (x : ℚ) : npPercentile95 [x] = x := by
  simp only [npPercentile95, sortAsc, List.insertionSort, List.orderedInsert]
  norm_num [pctIdx]

/-- The percentile of a nonempty all-equal list is the common value. -/
lemma npPercentile95_const {vals : List ℚ} {c : ℚ} (hne : vals ≠ [])
    (hall : ∀ x ∈ vals, x = c) : npPercentile95 vals = c := by
  have hn : 0 < vals.length := List.length_pos.mpr hne
  have hs : ∀ x ∈ sortAsc vals, x = c := fun x hx => hall x (sortAsc_mem hx)
  have hlo : (⌊pctIdx vals.length⌋).toNat < (sortAsc vals).length := by
    rw [sortAsc_length]; exact pctIdx_floor_lt hn
  have hhi : (⌈pctIdx vals.length⌉).toNat < (sortAsc vals).length := by
    rw [sortAsc_length]; exact pctIdx_ceil_lt hn
  have ha : (sortAsc vals).getD (⌊pctIdx vals.length⌋).toNat 0 = c := by
    rw [List.getD_eq_getElem _ 0 hlo]
    exact hs _ (List.getElem_mem hlo)
  have hb : (sortAsc vals).getD (⌈pctIdx vals.length⌉).toNat 0 = c := by
    rw [List.getD_eq_getElem _ 0 hhi]
    exact hs _ (List.getElem_mem hhi)
  simp only [npPercentile95, ha, hb]
  ring

/-- The interpolated percentile of a list of non-negative values is
non-negative. -/
lemma npPercentile95_nonneg {vals : List ℚ} (hall : ∀ x ∈ vals, 0 ≤ x) :
    0 ≤ npPercentile95 vals := by
  have hs : ∀ x ∈ sortAsc vals, 0 ≤ x := fun x hx => hall x (sortAsc_mem hx)
  have ha : 0 ≤ (sortAsc vals).getD (⌊pctIdx vals.length⌋).toNat 0 :=
    getD_zero_nonneg _ _ hs
  have hb : 0 ≤ (sortAsc vals).getD (⌈pctIdx vals.length⌉).toNat 0 :=
    getD_zero_nonneg _ _ hs
  have hf0 : 0 ≤ pctIdx vals.length - (⌊pctIdx vals.length⌋ : ℚ) := by
    have := Int.floor_le (pctIdx vals.length)
    linarith
  have hf1 : pctIdx vals.length - (⌊pctIdx vals.length⌋ : ℚ) < 1 := by
    have := Int.lt_floor_add_one (pctIdx vals.length)
    linarith
  simp only [npPercentile95]
  nlinarith [mul_nonneg hf0 hb, mul_nonneg (by linarith : (0:ℚ) ≤ 1 - (pctIdx vals.length - (⌊pctIdx vals.length⌋ : ℚ))) ha]

/-- The spec-side per-sample combination agrees with the code-side one
followed by unit conversion. -/
lemma specCombined_eq (row : List (Option ℚ)) :
    specCombined (row.getD 0 none, row.getD 1 none) =
      (combinedOf row).map (fun v => v * 8 / 1000000) := by
  unfold specCombined combinedOf
  rcases row.getD 0 none with _ | a <;> rcases row.getD 1 none with _ | b <;> simp

/-- Filtering the spec-side samples equals converting the code-side
combined values. -/
lemma pairsOf_filterMap (data : List (List (Option ℚ))) :
    (pairsOf data).filterMap specCombined =
      (data.filterMap combinedOf).map (fun v => v * 8 / 1000000) := by
  unfold pairsOf
  rw [List.filterMap_map, List.map_filterMap]
  apply List.filterMap_congr
  intro row _
  exact specCombined_eq row

/-- The code's percentile equals the spec's sort-then-interpolate form. -/
lemma npPercentile95_eq_specInterpolate (vals : List ℚ) :
    npPercentile95 vals = specInterpolate (sortAsc vals) := by
  simp only [npPercentile95, specInterpolate, pctIdx, sortAsc_length]

/-- With at least two DS names, `compute_95th` never raises. -/
lemma compute_95th_isOk {f : FetchRes} (h : 2 ≤ f.names.length) :
    ∃ v, compute_95th f = Except.ok v := by
  unfold compute_95th
  rw [if_neg (by omega)]
  by_cases hc : (f.data.filterMap combinedOf).isEmpty
  · exact ⟨0, by rw [if_pos hc]⟩
  · exact ⟨_, by rw [if_neg hc]⟩

/-- Whenever the filtered combined values are nonempty (and two DS names
exist), `compute_95th` returns the spec's `percentile95`. -/
lemma compute_95th_eq_spec {names : List String} {data : List (List (Option ℚ))}
    (hn : 2 ≤ names.length) (hd : data.filterMap combinedOf ≠ []) :
    compute_95th ⟨names, data⟩ = Except.ok (percentile95_spec (pairsOf data)) := by
  unfold compute_95th
  rw [if_neg (by simpa using by omega : ¬ names.length < 2)]
  simp only
  rw [if_neg (by simpa [List.isEmpty_iff] using hd)]
  unfold percentile95_spec
  rw [pairsOf_filterMap, npPercentile95_eq_specInterpolate]

/-- All rates in a fetch result are non-negative. -/
def FetchNonneg (f : FetchRes) : Prop :=
  ∀ row ∈ f.data, ∀ q : ℚ, some q ∈ row → 0 ≤ q

/-- On non-negative data, a successful `compute_95th` is non-negative. -/
lemma compute_95th_nonneg {f : FetchRes} {v : ℚ} (hf : FetchNonneg f)
    (h : compute_95th f = Except.ok v) : 0 ≤ v := by
  unfold compute_95th at h
  by_cases hn : f.names.length < 2
  · rw [if_pos hn] at h; exact absurd h (by simp)
  · rw [if_neg hn] at h
    simp only at h
    by_cases hc : (f.data.filterMap combinedOf).isEmpty
    · rw [if_pos hc] at h
      cases h; norm_num
    · rw [if_neg hc] at h
      cases h
      apply npPercentile95_nonneg
      intro x hx
      rcases List.mem_map.mp hx with ⟨w, hw, rfl⟩
      rcases List.mem_filterMap.mp hw with ⟨row, hrow, hcomb⟩
      unfold combinedOf at hcomb
      rcases h0 : row.getD 0 none with _ | a <;> rw [h0] at hcomb
      · exact absurd hcomb (by simp)
      · rcases h1 : row.getD 1 none with _ | b <;> rw [h1] at hcomb
        · exact absurd hcomb (by simp)
        · have ha : 0 ≤ a := hf row hrow a (getD_mem_of_ne_default h0)
          have hb : 0 ≤ b := hf row hrow b (getD_mem_of_ne_default h1)
          cases hcomb
          have : 0 ≤ max a b := le_trans ha (le_max_left a b)
          positivity

/-- Every successfully computed interface percentile over non-negative
data is non-negative. -/
lemma successVals_nonneg {outcomes : List (Except String FetchRes)}
    (h : ∀ f : FetchRes, Except.ok f ∈ outcomes → FetchNonneg f) :
    ∀ x ∈ successVals outcomes, 0 ≤ x := by
  intro x hx
  unfold successVals at hx
  rcases List.mem_filterMap.mp hx with ⟨o, ho, hval⟩
  rcases o with e | f
  · exact absurd hval (by simp [interfaceVal, Except.bind, Except.toOption])
  · have hval' : (compute_95th f).toOption = some x := by
      simpa [interfaceVal, Except.bind] using hval
    rcases hc : compute_95th f with e | w
    · rw [hc] at hval'
      exact absurd hval' (by simp [Except.toOption])
    · rw [hc] at hval'
      have hw : w = x := by simpa [Except.toOption] using hval'
      exact hw ▸ compute_95th_nonneg (h f ho) hc

/-- The customer figure over non-negative data is non-negative. -/
lemma processCustomer_nonneg {outcomes : List (Except String FetchRes)}
    (h : ∀ f : FetchRes, Except.ok f ∈ outcomes → FetchNonneg f) :
    0 ≤ processCustomer outcomes := by
  unfold processCustomer
  by_cases hs : successVals outcomes = []
  · rw [hs]; norm_num [maxList]
  · exact successVals_nonneg h _ (maxList_mem hs)

/-- Unfolding step of `String.intercalate`'s accumulator. -/
lemma intercalate_go_cons (acc s a : String) (t : List String) :
    String.intercalate.go acc s (a :: t) = String.intercalate.go (acc ++ s ++ a) s t := rfl

/-- The accumulator of `String.intercalate` factors out on the left. -/
lemma intercalate_go_append (s : String) :
    ∀ (t : List String) (acc₁ acc₂ : String),
      String.intercalate.go (acc₁ ++ acc₂) s t = acc₁ ++ String.intercalate.go acc₂ s t := by
  intro t
  induction t with
  | nil => intro acc₁ acc₂; rfl
  | cons a t ih =>
    intro acc₁ acc₂
    rw [intercalate_go_cons, intercalate_go_cons, String.append_assoc,
      String.append_assoc, ih, ← String.append_assoc acc₂ s a]

/-- `intercalate` on a two-or-more-element list peels its head. -/
lemma intercalate_cons_cons (s a b : String) (t : List String) :
    String.intercalate s (a :: b :: t) = a ++ s ++ String.intercalate s (b :: t) := by
  show String.intercalate.go a s (b :: t) = a ++ s ++ String.intercalate.go b s t
  rw [intercalate_go_cons]
  have : a ++ s ++ b = (a ++ s) ++ b := by rw [String.append_assoc]
  rw [this, intercalate_go_append s t (a ++ s) b, String.append_assoc]

/-- The report text of lines 156–157 is exactly the header line, a blank
line, and the result lines, joined by newlines. -/
lemma buildReport_eq_lines (label : String) (results : List (String × ℚ))
    (hne : results ≠ []) :
    buildReport label results =
      String.intercalate "\n"
        (("95th Percentile Billing Report for " ++ label) :: "" ::
          results.map (fun r => billLine r.1 r.2)) := by
  match results with
  | r :: rs =>
    rw [List.map_cons, intercalate_cons_cons, intercalate_cons_cons]
    unfold buildReport
    rw [List.map_cons]
    apply String.ext
    simp [String.data_append]

/-- Keys after a `defaultdict` insertion: an existing key keeps the key
list unchanged, a new key is appended. -/
lemma insertGroup_keys (acc : List (String × List String)) (key file : String) :
    (insertGroup acc key file).map Prod.fst =
      if key ∈ acc.map Prod.fst then acc.map Prod.fst
      else acc.map Prod.fst ++ [key] := by
  induction acc with
  | nil => simp [insertGroup]
  | cons p rest ih =>
    match p with
    | (k, fs) =>
      by_cases hk : k = key
      · subst hk
        simp [insertGroup]
      · simp only [insertGroup, if_neg hk, List.map_cons, ih]
        by_cases hmem : key ∈ rest.map Prod.fst
        · rw [if_pos hmem, if_pos (by simp [hmem])]
        · rw [if_neg hmem, if_neg (by simp [hmem, Ne.symm hk])]
          simp

/-- The grouping fold lists customers in first-seen order of the kept
rows. -/
lemma foldl_insertGroup_keys (fexists : String → Bool) (base : String) :
    ∀ (rs : List PortRow) (acc : List (String × List String)),
      ((rs.foldl (fun acc r =>
          if fexists (rrdFile base r) then insertGroup acc (custNameOf r.ifAlias) (rrdFile base r)
          else acc) acc).map Prod.fst) =
        ((rs.filter (fun r => fexists (rrdFile base r))).map
            (fun r => custNameOf r.ifAlias)).foldl
          (fun a n => if n ∈ a then a else a ++ [n]) (acc.map Prod.fst) := by
  intro rs
  induction rs with
  | nil => intro acc; rfl
  | cons r rs ih =>
    intro acc
    rw [List.foldl_cons, List.filter_cons]
    by_cases hf : fexists (rrdFile base r)
    · rw [if_pos hf, if_pos hf, List.map_cons, List.foldl_cons, ih, insertGroup_keys]
    · rw [if_neg hf, if_neg hf, ih]

/-- `load_customer_interfaces` lists its customer groups in first-seen
order of the kept (matching, file-existing) directory rows. -/
lemma load_customer_interfaces_keys (fexists : String → Bool) (base : String)
    (rows : List PortRow) :
    (load_customer_interfaces fexists base rows).map Prod.fst =
      firstSeen
        (((rows.filter (fun r => matchesCust r.ifAlias)).filter
            (fun r => fexists (rrdFile base r))).map (fun r => custNameOf r.ifAlias)) := by
  unfold load_customer_interfaces firstSeen
  exact foldl_insertGroup_keys fexists base _ []

/-- A true `listStartsWith` is a list-append decomposition. -/
lemma listStartsWith_append : ∀ {p c : List Char}, listStartsWith p c = true →
    ∃ t, c = p ++ t := by
  intro p
  induction p with
  | nil => intro c _; exact ⟨c, rfl⟩
  | cons x ps ih =>
    intro c h
    match c with
    | [] => simp [listStartsWith] at h
    | y :: cs =>
      simp only [listStartsWith, Bool.and_eq_true, decide_eq_true_eq] at h
      rcases ih h.2 with ⟨t, ht⟩
      exact ⟨t, by rw [h.1, ht]; rfl⟩

/-- Unfolded success case of `compute_95th`. -/
lemma compute_95th_ok_of_ne {names : List String} {data : List (List (Option ℚ))}
    (hn : 2 ≤ names.length) (hd : data.filterMap combinedOf ≠ []) :
    compute_95th ⟨names, data⟩ =
      Except.ok (npPercentile95
        ((data.filterMap combinedOf).map (fun v => v * 8 / 1000000))) := by
  unfold compute_95th
  rw [if_neg (by simpa using by omega : ¬ names.length < 2)]
  simp only
  rw [if_neg (by simpa [List.isEmpty_iff] using hd)]

/-- A fetch result whose single sample's busier direction is 1.25 MB/s,
i.e. a 10.0 Mbps interface percentile. -/
def fetchTen : FetchRes := ⟨["in", "out"], [[some 1250000, some 1250000]]⟩

/-- A fetch result whose single sample's busier direction is 5.3125 MB/s,
i.e. a 42.5 Mbps interface percentile. -/
def fetchFortyTwoHalf : FetchRes := ⟨["in", "out"], [[some 5312500, some 5312500]]⟩

/-- C1: for every customer group, the billable figure is the maximum of
the successfully computed per-interface 95th-percentile values (it is a
member of them and an upper bound — so neither their mean nor their sum);
a customer with interface percentiles 10.0 and 42.5 bills at 42.5; and if
every interface failed to load, the customer's `billableMbps` is 0.0. -/
theorem claim_C1_customer_max :
    (∀ outcomes : List (Except String FetchRes),
        successVals outcomes ≠ [] →
          processCustomer outcomes ∈ successVals outcomes ∧
            ∀ v ∈ successVals outcomes, v ≤ processCustomer outcomes) ∧
      (∀ outcomes : List (Except String FetchRes),
          (∀ o ∈ outcomes, ∃ e, interfaceVal o = Except.error e) →
            processCustomer outcomes = 0) ∧
      compute_95th fetchTen = Except.ok 10 ∧
      compute_95th fetchFortyTwoHalf = Except.ok (85 / 2) ∧
      processCustomer [Except.ok fetchTen, Except.ok fetchFortyTwoHalf] = 85 / 2 := by
  refine ⟨?_, ?_, ?_, ?_, ?_⟩
  · intro outcomes hne
    exact ⟨maxList_mem hne, fun v hv => le_maxList hv⟩
  · intro outcomes hfail
    have hsv : successVals outcomes = [] := by
      unfold successVals
      rw [List.filterMap_eq_nil_iff]
      intro o ho
      rcases hfail o ho with ⟨e, he⟩
      rw [he]
      rfl
    unfold processCustomer
    rw [hsv]
    rfl
  · simp only [compute_95th, fetchTen]
    norm_num [combinedOf, npPercentile95, sortAsc, pctIdx, List.insertionSort,
      List.orderedInsert, List.filterMap]
  · simp only [compute_95th, fetchFortyTwoHalf]
    norm_num [combinedOf, npPercentile95, sortAsc, pctIdx, List.insertionSort,
      List.orderedInsert, List.filterMap]
  · norm_num [processCustomer, successVals, interfaceVal, Except.bind, maxList,
      fetchTen, fetchFortyTwoHalf, compute_95th, combinedOf, npPercentile95, sortAsc,
      pctIdx, List.insertionSort, List.orderedInsert, List.filterMap, Except.toOption]

/-- Witness for C1 at concrete inputs. -/
theorem claim_C1_customer_max_witness :
    (successVals [Except.ok fetchTen] ≠ [] ∧
      processCustomer [Except.ok fetchTen] ∈ successVals [Except.ok fetchTen] ∧
        ∀ v ∈ successVals [Except.ok fetchTen], v ≤ processCustomer [Except.ok fetchTen]) ∧
      ((∀ o ∈ [(Except.error "down" : Except String FetchRes)],
          ∃ e, interfaceVal o = Except.error e) ∧
        processCustomer [Except.error "down"] = 0) := by
  have h1 : successVals [Except.ok fetchTen] ≠ [] := by
    norm_num [successVals, interfaceVal, Except.bind, fetchTen, compute_95th,
      combinedOf, List.filterMap, Except.toOption]
  have h2 : ∀ o ∈ [(Except.error "down" : Except String FetchRes)],
      ∃ e, interfaceVal o = Except.error e := by
    intro o ho
    rw [List.mem_singleton] at ho
    subst ho
    exact ⟨"down", rfl⟩
  exact ⟨⟨h1, claim_C1_customer_max.1 _ h1⟩, ⟨h2, claim_C1_customer_max.2.1 _ h2⟩⟩

/-- C2: for every sample sequence with at least one fully-present sample,
`compute_95th` equals the spec's reference `percentile95`: per-sample
`max(inRate, outRate)` (never the sum), conversion by `* 8 / 1_000_000`,
ascending sort, linear interpolation at index `0.95 * (n-1)`; a single
sample returns its own value and an all-equal sequence returns that
value. -/
theorem claim_C2_percentile_matches_spec :
    (∀ (names : List String) (data : List (List (Option ℚ))),
        2 ≤ names.length → data.filterMap combinedOf ≠ [] →
          compute_95th ⟨names, data⟩ = Except.ok (percentile95_spec (pairsOf data))) ∧
      (∀ (names : List String) (a b : ℚ), 2 ≤ names.length →
          compute_95th ⟨names, [[some a, some b]]⟩ =
            Except.ok (max a b * 8 / 1000000)) ∧
      (∀ (names : List String) (data : List (List (Option ℚ))) (c : ℚ),
          2 ≤ names.length → data ≠ [] →
          (∀ row ∈ data, combinedOf row = some c) →
            compute_95th ⟨names, data⟩ = Except.ok (c * 8 / 1000000)) := by
  refine ⟨?_, ?_, ?_⟩
  · intro names data hn hd
    exact compute_95th_eq_spec hn hd
  · intro names a b hn
    have hc : List.filterMap combinedOf [[some a, some b]] = [max a b] := by
      simp [List.filterMap, combinedOf]
    rw [compute_95th_ok_of_ne hn (by rw [hc]; simp), hc]
    rw [List.map_singleton, npPercentile95_singleton]
  · intro names data c hn hd hall
    have hne : data.filterMap combinedOf ≠ [] := by
      intro h
      rw [List.filterMap_eq_nil_iff] at h
      match data, hd with
      | row :: _, _ =>
        have h1 := hall row (List.mem_cons_self row _)
        have h2 := h row (List.mem_cons_self row _)
        rw [h1] at h2
        exact absurd h2 (by simp)
    rw [compute_95th_ok_of_ne hn hne]
    congr 1
    apply npPercentile95_const
    · simpa using hne
    · intro x hx
      rcases List.mem_map.mp hx with ⟨w, hw, rfl⟩
      rcases List.mem_filterMap.mp hw with ⟨row, hrow, hcomb⟩
      rw [hall row hrow] at hcomb
      cases hcomb
      rfl

/-- Witness for C2 at concrete inputs. -/
theorem claim_C2_percentile_matches_spec_witness :
    compute_95th ⟨["in", "out"], [[some 1, some 2]]⟩ =
        Except.ok (percentile95_spec (pairsOf [[some 1, some 2]])) ∧
      compute_95th ⟨["in", "out"], [[some 3, some 4]]⟩ =
        Except.ok (max 3 4 * 8 / 1000000) ∧
      compute_95th ⟨["in", "out"], [[some 5, some 5]]⟩ =
        Except.ok (5 * 8 / 1000000) :=
  ⟨claim_C2_percentile_matches_spec.1 ["in", "out"] [[some 1, some 2]]
      (by norm_num) (by simp [List.filterMap, combinedOf]),
    claim_C2_percentile_matches_spec.2.1 ["in", "out"] 3 4 (by norm_num),
    claim_C2_percentile_matches_spec.2.2 ["in", "out"] [[some 5, some 5]] 5
      (by norm_num) (by simp)
      (by intro row hrow; rw [List.mem_singleton] at hrow; subst hrow; rfl)⟩

/-- A row of `combinedOf` with a gap in either direction is dropped. -/
lemma combinedOf_gap {row : List (Option ℚ)}
    (h : row.getD 0 none = none ∨ row.getD 1 none = none) :
    combinedOf row = none := by
  unfold combinedOf
  rcases h with h | h
  · rw [h]
  · rw [h]
    cases h0 : row.getD 0 none
    · rfl
    · rfl

/-- C5: a sample missing either direction is excluded entirely, not
zero-filled: any number of gap samples around one fully-present sample
leaves that sample's (converted) value as the percentile. -/
theorem claim_C5_gaps_excluded :
    ∀ (names : List String) (pre post : List (List (Option ℚ)))
      (mid : List (Option ℚ)) (a b : ℚ),
      2 ≤ names.length →
      mid.getD 0 none = some a → mid.getD 1 none = some b →
      (∀ row ∈ pre ++ post, row.getD 0 none = none ∨ row.getD 1 none = none) →
      compute_95th ⟨names, pre ++ mid :: post⟩ =
        Except.ok (max a b * 8 / 1000000) := by
  intro names pre post mid a b hn h0 h1 hgaps
  have hmid : combinedOf mid = some (max a b) := by
    unfold combinedOf
    rw [h0, h1]
  have hpre : pre.filterMap combinedOf = [] := by
    rw [List.filterMap_eq_nil_iff]
    intro row hrow
    exact combinedOf_gap (hgaps row (List.mem_append_left _ hrow))
  have hpost : post.filterMap combinedOf = [] := by
    rw [List.filterMap_eq_nil_iff]
    intro row hrow
    exact combinedOf_gap (hgaps row (List.mem_append_right _ hrow))
  have hc : (pre ++ mid :: post).filterMap combinedOf = [max a b] := by
    rw [List.filterMap_append, hpre, List.filterMap_cons, hmid, hpost]
    rfl
  rw [compute_95th_ok_of_ne hn (by rw [hc]; simp), hc]
  rw [List.map_singleton, npPercentile95_singleton]

/-- Witness for C5: one valid sample among two gap samples. -/
theorem claim_C5_gaps_excluded_witness :
    compute_95th ⟨["in", "out"],
        [[none, some 7], [some 3, some 4], [some 9, none]]⟩ =
      Except.ok (max 3 4 * 8 / 1000000) :=
  claim_C5_gaps_excluded ["in", "out"] [[none, some 7]] [[some 9, none]]
    [some 3, some 4] 3 4 (by norm_num) rfl rfl
    (by
      intro row hrow
      rcases List.mem_append.mp hrow with h | h <;>
        rw [List.mem_singleton] at h <;> subst h
      · left; rfl
      · right; rfl)

/-- A fetch result containing a negative rate (impossible for real
counters, but accepted by the code). -/
def negFetch : FetchRes := ⟨["in", "out"], [[some (-1000000), some (-2000000)]]⟩

/-- On the negative-rate fetch, `compute_95th` happily returns −8 Mbps. -/
lemma compute_95th_negFetch : compute_95th negFetch = Except.ok (-8) := by
  simp only [compute_95th, negFetch]
  norm_num [combinedOf, npPercentile95, sortAsc, pctIdx, List.insertionSort,
    List.orderedInsert, List.filterMap]

/-- C3 counterexample: a sample with negative rates does NOT raise a
validation error — `compute_95th` returns the negative percentile −8. -/
theorem claim_C3_counterexample :
    compute_95th negFetch = Except.ok (-8) ∧
      ¬∃ e, compute_95th negFetch = Except.error e := by
  refine ⟨compute_95th_negFetch, ?_⟩
  rintro ⟨e, he⟩
  rw [compute_95th_negFetch] at he
  exact absurd he (by simp)

/-- C3 amended: `compute_95th` performs no rate validation at all — with
at least two DS names it always succeeds, and a negative rate flows into
the result unclamped (the negative-rate example yields −8, not an error
and not 0). -/
theorem claim_C3_amended :
    (∀ f : FetchRes, 2 ≤ f.names.length → ∃ v, compute_95th f = Except.ok v) ∧
      compute_95th negFetch = Except.ok (-8) :=
  ⟨fun _ h => compute_95th_isOk h, compute_95th_negFetch⟩

/-- Witness for the amended C3. -/
theorem claim_C3_amended_witness :
    2 ≤ negFetch.names.length ∧ ∃ v, compute_95th negFetch = Except.ok v :=
  ⟨by norm_num [negFetch], claim_C3_amended.1 negFetch (by norm_num [negFetch])⟩

/-- A fetch oracle for which every fetch fails. -/
def downOracle : String → Except String FetchRes := fun _ => Except.error "unreachable"

/-- C4 counterexample: with zero customer groups the program prints a
message and RETURNS from `main` — process exit code 0 and no report —
contradicting the claimed non-zero exit code. -/
theorem claim_C4_counterexample :
    (runMain "September 2025" downOracle []).1 = 0 ∧
      (runMain "September 2025" downOracle []).2 = none :=
  ⟨rfl, rfl⟩

/-- C4 amended: the modelled `main` (from the point customers are loaded)
always exits with code 0 — both in the zero-customers path, which aborts
without a report, and in every path where interfaces were merely skipped
with warnings. -/
theorem claim_C4_amended :
    (∀ (label : String) (F : String → Except String FetchRes)
        (customers : List (String × List String)),
        (runMain label F customers).1 = 0) ∧
      (∀ (label : String) (F : String → Except String FetchRes),
        (runMain label F []).2 = none) := by
  constructor
  · intro label F customers
    unfold runMain
    by_cases h : customers.isEmpty
    · rw [if_pos h]
    · rw [if_neg h]
  · intro label F
    rfl

/-- C6: in previous-month mode with the clock anywhere on 2025-09-15, the
period selector returns the window 2025-08-01T00:00:00 … 2025-08-31T23:59:59
(local time, the end being one second before the first instant of the
current month) and the label "August 2025". -/
theorem claim_C6_previous_period :
    ∀ hh mm ss : Nat,
      get_date_range_prev ⟨2025, 9, 15, hh, mm, ss⟩ =
          (⟨2025, 8, 1, 0, 0, 0⟩, ⟨2025, 8, 31, 23, 59, 59⟩) ∧
        get_month_label_prev ⟨2025, 9, 15, hh, mm, ss⟩ = "August 2025" := by
  intro hh mm ss
  have h : get_month_label_prev ⟨2025, 9, 15, hh, mm, ss⟩ =
      get_month_label_prev ⟨2025, 9, 15, 0, 0, 0⟩ := rfl
  refine ⟨rfl, ?_⟩
  rw [h]
  decide

/-- A fetch oracle always returning the negative-rate fetch result. -/
def negOracle : String → Except String FetchRes := fun _ => Except.ok negFetch

/-- C7 counterexample: because negative rates pass through unvalidated, a
run can produce a `BillingResult` with `billableMbps = −8 < 0`. -/
theorem claim_C7_counterexample :
    billingResults negOracle [("Evil", ["x.rrd"])] = [("Evil", -8)] ∧
      (-8 : ℚ) < 0 := by
  have hp : processCustomer [Except.ok negFetch] = -8 := by
    unfold processCustomer successVals interfaceVal
    rw [List.filterMap_cons]
    simp [Except.bind, compute_95th_negFetch, Except.toOption, maxList]
  constructor
  · unfold billingResults negOracle
    rw [List.map_cons, List.map_nil, List.map_cons, List.map_nil]
    rw [hp]
  · norm_num

/-- C7 amended: provided every rate in every successfully fetched result
is non-negative (as real traffic counters are), every `BillingResult` of
the run has `billableMbps ≥ 0` — whether it comes from a computed
percentile, an empty sample set, or an all-interfaces-failed customer. -/
theorem claim_C7_amended :
    ∀ (F : String → Except String FetchRes)
      (customers : List (String × List String)),
      (∀ file f, F file = Except.ok f → FetchNonneg f) →
      ∀ r ∈ billingResults F customers, 0 ≤ r.2 := by
  intro F customers hF r hr
  unfold billingResults at hr
  rcases List.mem_map.mp hr with ⟨c, hc, rfl⟩
  simp only
  apply processCustomer_nonneg
  intro f hf
  rcases List.mem_map.mp hf with ⟨file, hfile, heq⟩
  exact hF file f heq

/-- A fetch oracle returning one small non-negative fetch result. -/
def posOracle : String → Except String FetchRes :=
  fun _ => Except.ok ⟨["in", "out"], [[some 1, some 2]]⟩

/-- Witness for the amended C7. -/
theorem claim_C7_amended_witness :
    (∀ file f, posOracle file = Except.ok f → FetchNonneg f) ∧
      ∀ r ∈ billingResults posOracle [("Acme", ["a.rrd"])], 0 ≤ r.2 := by
  have hpos : ∀ file f, posOracle file = Except.ok f → FetchNonneg f := by
    intro file f h
    have hf : f = ⟨["in", "out"], [[some 1, some 2]]⟩ := by
      unfold posOracle at h
      exact (Except.ok.inj h).symm
    subst hf
    intro row hrow q hq
    rw [List.mem_singleton] at hrow
    subst hrow
    rcases List.mem_cons.mp hq with h1 | h1
    · cases h1; norm_num
    · rw [List.mem_singleton] at h1
      cases h1
      norm_num
  exact ⟨hpos, claim_C7_amended posOracle [("Acme", ["a.rrd"])] hpos⟩

/-- C9: `compute_95th` selects the combined series purely by position —
its result is invariant under renaming the DS list (same length) and it
always reads columns 0 and 1, so listing the same named series in a
different order changes the result (demonstrated with a 3-series RRD
whose columns are permuted along with their names: 2 Mbps vs 10 Mbps). -/
theorem claim_C9_positional_series :
    (∀ (names names' : List String) (data : List (List (Option ℚ))),
        names.length = names'.length →
        compute_95th ⟨names, data⟩ = compute_95th ⟨names', data⟩) ∧
      compute_95th ⟨["in", "out", "extra"],
          [[some 125000, some 250000, some 1250000]]⟩ = Except.ok 2 ∧
      compute_95th ⟨["extra", "in", "out"],
          [[some 1250000, some 125000, some 250000]]⟩ = Except.ok 10 := by
  refine ⟨?_, ?_, ?_⟩
  · intro names names' data h
    simp only [compute_95th, h]
  · simp only [compute_95th]
    norm_num [combinedOf, npPercentile95, sortAsc, pctIdx, List.insertionSort,
      List.orderedInsert, List.filterMap]
  · simp only [compute_95th]
    norm_num [combinedOf, npPercentile95, sortAsc, pctIdx, List.insertionSort,
      List.orderedInsert, List.filterMap]

/-- Witness for C9's universally quantified part. -/
theorem claim_C9_positional_series_witness :
    (["a", "b"] : List String).length = (["c", "d"] : List String).length ∧
      compute_95th ⟨["a", "b"], [[some 1, some 2]]⟩ =
        compute_95th ⟨["c", "d"], [[some 1, some 2]]⟩ :=
  ⟨rfl, claim_C9_positional_series.1 ["a", "b"] ["c", "d"] [[some 1, some 2]] rfl⟩

/-- C10: for every directory row whose alias matches the customer prefix
convention, the customer name is the text after the first colon with
surrounding whitespace stripped; hence "Cust:Acme" and "cust:  Acme "
land in the same customer group. -/
theorem claim_C10_alias_normalization :
    (∀ als : String, matchesCust als = true →
        ∃ rest, splitFirstColonList als.data = some rest ∧
          custNameOf als = String.mk (pyStripList rest)) ∧
      load_customer_interfaces (fun _ => true) "/rrd"
          [⟨1, "Cust:Acme", "h1"⟩, ⟨2, "cust:  Acme ", "h2"⟩] =
        [("Acme", ["/rrd/h1/port-1.rrd", "/rrd/h2/port-2.rrd"])] := by
  constructor
  · intro als h
    unfold matchesCust at h
    rw [Bool.or_eq_true] at h
    rcases h with h | h
    · rcases listStartsWith_append h with ⟨t, ht⟩
      have hsplit : splitFirstColonList als.data = some t := by
        rw [ht]
        rfl
      refine ⟨t, hsplit, ?_⟩
      unfold custNameOf
      rw [hsplit]
    · rcases listStartsWith_append h with ⟨t, ht⟩
      have hsplit : splitFirstColonList als.data = some t := by
        rw [ht]
        rfl
      refine ⟨t, hsplit, ?_⟩
      unfold custNameOf
      rw [hsplit]
  · decide

/-- Witness for C10's universally quantified part. -/
theorem claim_C10_alias_normalization_witness :
    matchesCust "Cust:Acme" = true ∧
      ∃ rest, splitFirstColonList "Cust:Acme".data = some rest ∧
        custNameOf "Cust:Acme" = String.mk (pyStripList rest) :=
  ⟨by decide, claim_C10_alias_normalization.1 "Cust:Acme" (by decide)⟩

/-- C8: for every period label and loaded customer groups, the report is
exactly the newline-joined sequence of: a header line naming the label, a
blank line, and one `"{name}: {value to 2 decimals} Mbps"` line per
result; and the results appear in first-seen discovery order of the
customers among the kept directory rows. -/
theorem claim_C8_report_structure :
    ∀ (label : String) (F : String → Except String FetchRes)
      (fexists : String → Bool) (base : String) (rows : List PortRow),
      load_customer_interfaces fexists base rows ≠ [] →
      (runMain label F (load_customer_interfaces fexists base rows)).2 =
          some (String.intercalate "\n"
            (("95th Percentile Billing Report for " ++ label) :: "" ::
              (billingResults F (load_customer_interfaces fexists base rows)).map
                (fun r => billLine r.1 r.2))) ∧
        (billingResults F (load_customer_interfaces fexists base rows)).map Prod.fst =
          firstSeen
            (((rows.filter (fun r => matchesCust r.ifAlias)).filter
                (fun r => fexists (rrdFile base r))).map
              (fun r => custNameOf r.ifAlias)) := by
  intro label F fexists base rows hne
  constructor
  · unfold runMain
    rw [if_neg (by simpa [List.isEmpty_iff] using hne)]
    simp only
    congr 1
    apply buildReport_eq_lines
    unfold billingResults
    simpa using hne
  · have hkeys : (billingResults F (load_customer_interfaces fexists base rows)).map
        Prod.fst = (load_customer_interfaces fexists base rows).map Prod.fst := by
      unfold billingResults
      rw [List.map_map]
      rfl
    rw [hkeys, load_customer_interfaces_keys]

/-- Witness for C8 at a concrete directory and a failing fetch oracle. -/
theorem claim_C8_report_structure_witness :
    load_customer_interfaces (fun _ => true) "/rrd" [⟨1, "Cust:Acme", "h"⟩] ≠ [] ∧
      ((runMain "August 2025" downOracle
            (load_customer_interfaces (fun _ => true) "/rrd" [⟨1, "Cust:Acme", "h"⟩])).2 =
          some (String.intercalate "\n"
            (("95th Percentile Billing Report for " ++ "August 2025") :: "" ::
              (billingResults downOracle
                  (load_customer_interfaces (fun _ => true) "/rrd"
                    [⟨1, "Cust:Acme", "h"⟩])).map (fun r => billLine r.1 r.2))) ∧
        (billingResults downOracle
            (load_customer_interfaces (fun _ => true) "/rrd"
              [⟨1, "Cust:Acme", "h"⟩])).map Prod.fst =
          firstSeen
            ((([⟨1, "Cust:Acme", "h"⟩]).filter
                  (fun r : PortRow => matchesCust r.ifAlias)).filter
                (fun r => (fun _ : String => true) (rrdFile "/rrd" r)) |>.map
              (fun r => custNameOf r.ifAlias))) :=
  ⟨by decide,
    claim_C8_report_structure "August 2025" downOracle (fun _ => true) "/rrd"
      [⟨1, "Cust:Acme", "h"⟩] (by decide)⟩
